import Mathlib

/-!
Verification of the two documentation-maintenance scripts of this repository:
`clean_planfiles_doc.py` and `update_terraform_docs.py`.

The scripts are straight-line Python: read a file, apply `re.sub` /
`str.replace` / line-scan transformations, write the file back.  We embed
their text transformations as executable functions on `List Char` and their
file effects as explicit state passing over an association-list file system.

Python regex notes relevant to the patterns used by the scripts (all are
compiled with `re.DOTALL` and without `re.MULTILINE`):
* `re.sub` replaces the leftmost matches, scanning left to right, resuming
  after the end of each match.
* Every pattern of the scripts has the shape `LITERAL .*? TERMINATOR` where
  the terminator is either a lookahead `(?=alts|$)` (consuming nothing) or a
  closing literal (consumed by the match).  The lazy `.*?` therefore extends
  to the first position at which the terminator succeeds.
* Without `re.MULTILINE`, `$` matches at the end of the string or just
  before a trailing final newline.
* `\n{3,}` is greedy: it matches a maximal run of at least three newlines.
-/

set_option maxRecDepth 4096

/-- Generic scanner step: `sM` decides whether a match starts at the current
suffix (returning how many characters the opening part consumes), `tM`
decides whether the terminator holds at a suffix (returning how many
characters the terminator consumes; `0` for a lookahead). -/
def findTerm (tM : List Char → Option Nat) : List Char → Option (Nat × Nat)
  | [] =>
    match tM [] with
    | some k => some (0, k)
    | none => none
  | c :: r =>
    match tM (c :: r) with
    | some k => some (0, k)
    | none => (findTerm tM r).map fun p => (p.1 + 1, p.2)

/-- One `re.sub`-style pass, replacing every (non-overlapping, leftmost)
match of `LITERAL .*? TERMINATOR` by `repl`.  `fuel` bounds the recursion;
every pattern of the scripts consumes at least one character per match, so
`fuel = s.length` computes the exact Python result. -/
def pySubAux (sM tM : List Char → Option Nat) (repl : List Char) :
    Nat → List Char → List Char
  | 0, s => s
  | _ + 1, [] => []
  | fuel + 1, c :: cs =>
    match sM (c :: cs) with
    | some l =>
      match findTerm tM ((c :: cs).drop l) with
      | some ek => repl ++ pySubAux sM tM repl fuel (((c :: cs).drop l).drop (ek.1 + ek.2))
      | none => c :: pySubAux sM tM repl fuel cs
    | none => c :: pySubAux sM tM repl fuel cs

def pySub (sM tM : List Char → Option Nat) (repl : List Char) (s : List Char) : List Char :=
  pySubAux sM tM repl s.length s

/-- Mirror of `pySubAux` computing only whether some match is found. -/
def pyMatchAux (sM tM : List Char → Option Nat) : Nat → List Char → Bool
  | 0, _ => false
  | _ + 1, [] => false
  | fuel + 1, c :: cs =>
    match sM (c :: cs) with
    | some l =>
      match findTerm tM ((c :: cs).drop l) with
      | some _ => true
      | none => pyMatchAux sM tM fuel cs
    | none => pyMatchAux sM tM fuel cs

def pyMatches (sM tM : List Char → Option Nat) (s : List Char) : Bool :=
  pyMatchAux sM tM s.length s

/-- Opening part that is a fixed literal. -/
def litM (lit : List Char) (t : List Char) : Option Nat :=
  if lit.isPrefixOf t then some lit.length else none

/-- Terminator that succeeds immediately consuming nothing (used to model
`str.replace`, whose "match" is just the literal). -/
def termNow (_ : List Char) : Option Nat := some 0

/-- Python `content.replace(old, new)`: replace every non-overlapping
occurrence of `old`, scanning left to right.  (The scripts only call it with
nonempty `old`.) -/
def pyReplace (old new s : List Char) : List Char :=
  pySub (litM old) termNow new s

/-- Length of the leading run of newline characters. -/
def nlRunLen (s : List Char) : Nat := (s.takeWhile (fun c => c == '\n')).length

/-- Opening part of the pattern `\n{3,}`: a maximal run of at least three
newlines (greedy). -/
def nlStart (t : List Char) : Option Nat :=
  if 3 ≤ nlRunLen t then some (nlRunLen t) else none

/-- The lookahead `(?=## |$)` of the section patterns: `$` (no `re.MULTILINE`)
holds at the end of the string or just before a trailing final newline, i.e.
when the remaining suffix is empty or a single newline. -/
def hdrStop (t : List Char) : Option Nat :=
  if ("## ").toList.isPrefixOf t || t == [] || t == ['\n'] then some 0 else none

/-- Whether the suffix starts with `### \d+\.` (used by the "Use Planfiles in
Production" pattern).  `\d+` greedily takes the maximal ASCII digit run and
the next character must be the literal dot. -/
def numHdrAhead (t : List Char) : Bool :=
  ("### ").toList.isPrefixOf t &&
    (let r := t.drop 4
     let d := (r.takeWhile (fun c => c.isDigit)).length
     decide (1 ≤ d) &&
       (match r.drop d with
        | '.' :: _ => true
        | _ => false))

/-- Opening part of `### \d+\. Use Planfiles in Production`. -/
def prodStart (t : List Char) : Option Nat :=
  if ("### ").toList.isPrefixOf t then
    let r := t.drop 4
    let d := (r.takeWhile (fun c => c.isDigit)).length
    if 1 ≤ d && (". Use Planfiles in Production").toList.isPrefixOf (r.drop d) then
      some (4 + d + (". Use Planfiles in Production").toList.length)
    else none
  else none

/-- The lookahead `(?=### \d+\.|## |$)`. -/
def prodStop (t : List Char) : Option Nat :=
  if numHdrAhead t || ("## ").toList.isPrefixOf t || t == [] || t == ['\n'] then some 0
  else none

/-- `True` when the list contains three consecutive newline characters
(hence when it contains a run of three or more). -/
def hasRun3 : List Char → Bool
  | c1 :: c2 :: c3 :: rest =>
    (c1 == '\n' && c2 == '\n' && c3 == '\n') || hasRun3 (c2 :: c3 :: rest)
  | _ => false

/-! ## `clean_planfiles_doc.py` -/

/-- Hardcoded target path of `clean_planfiles_doc.py` (line 4). -/
def file_path : List Char :=
  "/Users/erik/Dev/cloudposse/tools/atmos/.conductor/custom-planfile/website/docs/core-concepts/terraform/planfiles.mdx".toList

/-- Opening literal of `ci_cd_pattern = r'## CI/CD Integration.*?(?=## |$)'` (line 10). -/
def ci_cd_lit : List Char := "## CI/CD Integration".toList

/-- Opening literal of `old_alternative_section` (line 14). -/
def alt_lit : List Char := "## Alternative: JSON/YAML Planfiles".toList

/-- Closing literal of `old_alternative_section` (line 14); `\.` is a literal dot. -/
def alt_end_lit : List Char :=
  "This performs a semantic comparison of the plan data structures, not a naive text diff.\n".toList

/-- `new_alternative_section` (lines 16-92). -/
def new_alternative_section : List Char :=
  "## Working with Planfiles in Practice\n\n### Binary Planfiles (Native Terraform)\n\nWhen using supported backends, Atmos automatically generates binary planfiles:\n\n```bash\n# Atmos generates: dev-vpc.planfile\natmos terraform plan vpc -s dev\n\n# Apply the generated planfile\natmos terraform apply vpc -s dev --from-plan\n\n# Or specify a custom planfile name\natmos terraform plan vpc -s dev -out=my-custom.tfplan\natmos terraform apply vpc -s dev --planfile my-custom.tfplan\n```\n\n### JSON/YAML Planfiles with `atmos terraform generate planfile`\n\nFor enhanced security scanning, policy validation, or when binary planfiles aren't suitable, use Atmos's JSON/YAML planfile generation:\n\n```bash\n# Generate JSON planfile for security scanning\natmos terraform generate planfile vpc -s dev --file-template plan-\x7b\x7b.stack\x7d\x7d-\x7b\x7b.component\x7d\x7d.json\n\n# Generate YAML planfile for human review\natmos terraform generate planfile vpc -s dev --file-template plan-\x7b\x7b.stack\x7d\x7d-\x7b\x7b.component\x7d\x7d.yaml\n```\n\n#### Integration with Security and Compliance Tools\n\nJSON planfiles enable integration with security scanning and policy tools:\n\n```bash\n# Generate JSON planfile for security scanning\natmos terraform generate planfile vpc -s prod --file-template prod-vpc.json\n\n# Scan with Wiz.io or similar tools\nwiz-cli iac scan --format terraform-plan prod-vpc.json\n\n# Check with Open Policy Agent (OPA)\nopa eval -d policies/ -i prod-vpc.json \"data.terraform.deny[msg]\"\n\n# Validate with Checkov\ncheckov --framework terraform_plan -f prod-vpc.json\n\n# Analyze with Terrascan\nterrascan scan -i tfplan -f prod-vpc.json\n```\n\nBenefits of JSON/YAML planfiles:\n- **Security Scanning**: Integrate with tools like Wiz.io, Snyk, Checkov\n- **Policy as Code**: Validate with OPA, Sentinel, or custom policies\n- **Human Review**: YAML format is easy to read and review\n- **Version Control**: Can be safely committed (no binary data)\n- **Backend Independent**: Works with any backend, including those that don't support binary planfiles\n- **Audit Trail**: Creates reviewable record of planned changes\n\n### Comparing Planfiles with `atmos terraform plan-diff`\n\nCompare any two planfiles to understand differences:\n\n```bash\n# Compare two JSON planfiles\natmos terraform plan-diff --file plan1.json --file2 plan2.json\n\n# Compare different formats\natmos terraform plan-diff --file plan1.yaml --file2 plan2.json --format yaml\n\n# Compare binary planfile with JSON (after converting)\natmos terraform generate planfile vpc -s dev --file-template current.json\natmos terraform plan-diff --file baseline.json --file2 current.json\n```\n\nThis performs a semantic comparison of the plan data structures, not a naive text diff.\n".toList

/-- Opening literal of `old_practices = r'## Best Practices.*?(?=## |$)'` (line 101). -/
def practices_lit : List Char := "## Best Practices".toList

/-- `new_practices` (lines 102-137). -/
def new_practices : List Char :=
  "## Best Practices\n\n### When to Use Planfiles\n\n**Use planfiles when:**\n- You need guaranteed consistency between plan and apply\n- Multiple team members review changes before applying\n- Compliance requires an audit trail of approved changes\n- You want to prevent drift between planning and execution\n- Running in automated pipelines where plans need approval\n\n**Skip planfiles when:**\n- Working in development environments with rapid iteration\n- Using backends that don't support them (Remote, Terraform Cloud)\n- Backend credentials would be embedded (HTTP backend)\n- Real-time infrastructure state is critical\n\n### Security Considerations\n\n1. **Never commit binary planfiles to version control** - They may contain sensitive data\n2. **Use environment variables for backend authentication** - Avoid `-backend-config` with sensitive values\n3. **Consider JSON planfiles for sensitive environments** - Use `atmos terraform generate planfile` for reviewable, scannable output\n4. **Set appropriate file permissions** - Planfiles should be readable only by authorized users\n5. **Clean up old planfiles** - Remove after applying or when no longer needed\n\n### Choosing the Right Approach\n\n| Scenario | Recommended Approach | Command |\n|----------|---------------------|---------|\n| Production deployment with approval | Binary planfile | `atmos terraform plan vpc -s prod` |\n| Security scanning required | JSON planfile | `atmos terraform generate planfile vpc -s prod --file-template plan.json` |\n| Using HTTP backend | Skip planfiles | `atmos terraform plan vpc -s prod --skip-planfile` |\n| Rapid development iteration | Skip planfiles | `atmos terraform deploy vpc -s dev` |\n| Compliance audit required | JSON planfile + version control | `atmos terraform generate planfile` with Git |\n\n".toList

/-- Opening literal of the GitLab pattern `r'For GitLab-managed.*?```\n'` (line 142). -/
def gitlab_lit : List Char := "For GitLab-managed".toList

/-- Closing literal of the GitLab pattern. -/
def fence_lit : List Char := "```\n".toList

/-- Line 11: `re.sub(ci_cd_pattern, '', content, flags=re.DOTALL)`. -/
def removeCICD (c : List Char) : List Char := pySub (litM ci_cd_lit) hdrStop [] c

/-- Line 94: `re.sub(old_alternative_section, new_alternative_section, content, flags=re.DOTALL)`. -/
def replaceAlternative (c : List Char) : List Char :=
  pySub (litM alt_lit) (litM alt_end_lit) new_alternative_section c

/-- Line 98: `re.sub(production_pattern, '', content, flags=re.DOTALL)`. -/
def removeProduction (c : List Char) : List Char := pySub prodStart prodStop [] c

/-- Line 139: `re.sub(old_practices, new_practices, content, flags=re.DOTALL)`. -/
def replacePractices (c : List Char) : List Char :=
  pySub (litM practices_lit) hdrStop new_practices c

/-- Line 142: `re.sub(r'For GitLab-managed.*?```\n', '', content, flags=re.DOTALL)`. -/
def removeGitLab (c : List Char) : List Char := pySub (litM gitlab_lit) (litM fence_lit) [] c

/-- Line 145: `re.sub(r'\n{3,}', '\n\n', content)`. -/
def collapseBlank (c : List Char) : List Char := pySub nlStart termNow ['\n', '\n'] c

/-- The whole in-memory transformation of `clean_planfiles_doc.py`
(lines 9-145), threading `content` through the six substitutions in
source order. -/
def cleanTransform (content : List Char) : List Char :=
  let c1 := removeCICD content
  let c2 := replaceAlternative c1
  let c3 := removeProduction c2
  let c4 := replacePractices c3
  let c5 := removeGitLab c4
  collapseBlank c5

/-! ## File-system model

Both scripts interact with the disk only through: existence test, whole-file
read, whole-file write, and file removal.  A file system is an association
list from paths to contents; a recorded `writes` log distinguishes "wrote
identical bytes" from "did not write". -/

abbrev FPath := List Char

abbrev FS := List (FPath × List Char)

def fsRead (fs : FS) (p : FPath) : Option (List Char) :=
  (fs.find? (fun e => e.1 == p)).map (fun e => e.2)

def fsWrite (fs : FS) (p : FPath) (c : List Char) : FS :=
  if fs.any (fun e => e.1 == p) then fs.map (fun e => if e.1 == p then (p, c) else e)
  else fs ++ [(p, c)]

def fsExistsB (fs : FS) (p : FPath) : Bool := fs.any (fun e => e.1 == p)

def fsErase (fs : FS) (p : FPath) : FS := fs.filter (fun e => !(e.1 == p))

/-- Running `clean_planfiles_doc.py` against a file system.  The script has
no existence check: `open(file_path, 'r')` on a missing file raises an
uncaught `FileNotFoundError` (modelled as `Except.error`).  On success it
unconditionally writes the transformed content back (lines 147-148); the
second component of the result records the paths written. -/
def cleanRun (fs : FS) : Except (List Char) (FS × List FPath) :=
  match fsRead fs file_path with
  | none => Except.error ("FileNotFoundError".toList)
  | some content =>
    Except.ok (fsWrite fs file_path (cleanTransform content), [file_path])

/-! ## `update_terraform_docs.py` -/

/-- Base directory of the documentation files (line 5). -/
def base_path : FPath :=
  "/Users/erik/Dev/cloudposse/tools/atmos/.conductor/custom-planfile/website/docs/cli/commands/terraform".toList

/-- `os.path.join(base_path, filename)`; `base_path` has no trailing slash,
so join inserts one separator. -/
def joinPath (base name : FPath) : FPath := base ++ '/' :: name

/-- One value of the `updates` dict (lines 8-93). -/
structure DocUpdate where
  purpose_addon : List Char
  info_box : List Char
deriving DecidableEq

/-- Python whitespace for `str.strip()`: space, `\t`, `\n`, `\r`, `\x0b`, `\x0c`. -/
def pySpace (c : Char) : Bool :=
  c == ' ' || c == '\t' || c == '\n' || c == '\r' || c == '\x0b' || c == '\x0c'

/-- Python `s.strip()`. -/
def pyStrip (s : List Char) : List Char :=
  ((s.dropWhile pySpace).reverse.dropWhile pySpace).reverse

/-- First argument of the first `content.replace` in the purpose-addon
branch (lines 108-111); the "replacement" is the f-string
`f":::note purpose\nUse this command"`, which contains no placeholder. -/
def purpose_note : List Char := ":::note purpose\nUse this command".toList

/-- The f-string replacement of the first `content.replace`, which is
character-for-character the same text as `purpose_note`. -/
def purpose_note_new : List Char := ":::note purpose\nUse this command".toList

/-- Anchor of the second `content.replace` (lines 113-116). -/
def sg_anchor : List Char := ":::\n\n<Screengrab".toList

/-- Lines 107-116: the purpose-addon branch, guarded by the truthiness of
`updates_dict.get("purpose_addon")` (empty string is falsy). -/
def applyPurpose (addon c : List Char) : List Char :=
  if addon == [] then c
  else
    pyReplace sg_anchor (addon ++ '\n' :: sg_anchor)
      (pyReplace purpose_note purpose_note_new c)

/-- `"This command"`, the `startswith` test of line 129. -/
def this_cmd : List Char := "This command".toList

/-- Whether the loop condition of line 129 holds at the current line:
`i > 0 and lines[i-1].startswith("This command") and line == ""`.
`prev = none` encodes `i = 0`. -/
def qualPrev (prev : Option (List Char)) (line : List Char) : Bool :=
  (match prev with
   | some p => this_cmd.isPrefixOf p
   | none => false) && line == []

/-- The `for i, line in enumerate(lines)` loop of lines 125-131, carrying the
previous line and the `added_info` flag; returns the built `new_lines` and
the final flag. -/
def infoAux (box : List Char) :
    Option (List Char) → Bool → List (List Char) → List (List Char) × Bool
  | _, added, [] => ([], added)
  | prev, added, line :: rest =>
    if !added && qualPrev prev line then
      let r := infoAux box (some line) true rest
      (line :: pyStrip box :: r.1, r.2)
    else
      let r := infoAux box (some line) added rest
      (line :: r.1, r.2)

/-- Lines 119-134: the info-box branch, guarded by the truthiness of
`updates_dict.get("info_box")`; `content` is only reassembled (with
`'\n'.join`) when an insertion happened. -/
def insertInfo (box c : List Char) : List Char :=
  if box == [] then c
  else
    let lines := c.splitOn '\n'
    let r := infoAux box none false lines
    if r.2 then List.intercalate ['\n'] r.1 else c

/-- The in-memory transformation of `update_file` (lines 104-134). -/
def updTransform (u : DocUpdate) (c : List Char) : List Char :=
  insertInfo u.info_box (applyPurpose u.purpose_addon c)

/-- The `updates` dict (lines 8-93), in insertion order. -/
def updFmt : DocUpdate :=
  ⟨" This command is a direct passthrough to the native `terraform fmt` command.".toList,
   "\n\n:::info Atmos Behavior\nThis is a pure passthrough command. Atmos does not perform automatic initialization, workspace management, or variable generation for `terraform fmt`. The command is executed directly in the component directory.\n:::".toList⟩

def updates : List (FPath × DocUpdate) :=
  [("terraform-fmt.mdx".toList, updFmt),
   ("terraform-version.mdx".toList,
    ⟨" This command is a direct passthrough to the native `terraform version` command.".toList,
     "\n\n:::info Atmos Behavior\nThis is a pure passthrough command. Atmos does not perform any special processing for `terraform version`. The command is executed directly without workspace management or variable generation.\n:::".toList⟩),
   ("terraform-login.mdx".toList,
    ⟨"".toList,
     "\n\n:::info Atmos Behavior\nThis is a pure passthrough command. Atmos does not perform automatic initialization or workspace management for `terraform login`. The command is executed directly to manage Terraform Cloud credentials.\n:::".toList⟩),
   ("terraform-logout.mdx".toList,
    ⟨"".toList,
     "\n\n:::info Atmos Behavior\nThis is a pure passthrough command. Atmos does not perform automatic initialization or workspace management for `terraform logout`. The command is executed directly to manage Terraform Cloud credentials.\n:::".toList⟩),
   ("terraform-console.mdx".toList,
    ⟨"".toList,
     "\n\n:::info Atmos Behavior\nAtmos provides standard setup for this command including automatic `terraform init`, workspace selection, and variable file generation. The console itself operates as native Terraform.\n:::".toList⟩),
   ("terraform-output.mdx".toList,
    ⟨"".toList,
     "\n\n:::info Atmos Behavior\nAtmos provides standard setup for this command including automatic `terraform init`, workspace selection, and variable file generation. The output retrieval itself is handled by native Terraform.\n:::".toList⟩),
   ("terraform-show.mdx".toList,
    ⟨"".toList,
     "\n\n:::info Atmos Behavior\nAtmos provides standard setup for this command including automatic `terraform init` and workspace selection. The show operation itself is handled by native Terraform.\n:::".toList⟩),
   ("terraform-providers.mdx".toList,
    ⟨"".toList,
     "\n\n:::info Atmos Behavior\nAtmos provides standard setup for this command including automatic `terraform init` and workspace selection. The provider information display is handled by native Terraform.\n:::".toList⟩),
   ("terraform-graph.mdx".toList,
    ⟨"".toList,
     "\n\n:::info Atmos Behavior\nAtmos provides standard setup for this command including automatic `terraform init` and workspace selection. The graph generation itself is handled by native Terraform.\n:::".toList⟩),
   ("terraform-get.mdx".toList,
    ⟨"".toList,
     "\n\n:::info Atmos Behavior\nAtmos provides standard setup for this command including automatic `terraform init` and workspace selection. The module download operation is handled by native Terraform.\n:::".toList⟩),
   ("terraform-force-unlock.mdx".toList,
    ⟨"".toList,
     "\n\n:::info Atmos Behavior\nAtmos provides standard setup for this command including automatic `terraform init` and workspace selection. The unlock operation itself is handled by native Terraform.\n:::".toList⟩),
   ("terraform-test.mdx".toList,
    ⟨"".toList,
     "\n\n:::info Atmos Behavior\nAtmos provides standard setup for this command including automatic `terraform init` and workspace selection. The test execution is handled by native Terraform.\n:::".toList⟩),
   ("terraform-metadata.mdx".toList,
    ⟨"".toList,
     "\n\n:::info Atmos Behavior\nAtmos provides standard setup for this command including automatic `terraform init` and workspace selection. The metadata operations are handled by native Terraform.\n:::".toList⟩),
   ("terraform-modules.mdx".toList,
    ⟨"".toList,
     "\n\n:::info Atmos Behavior\nAtmos provides standard setup for this command including automatic `terraform init` and workspace selection. The module listing is handled by native Terraform.\n:::".toList⟩),
   ("terraform-validate.mdx".toList,
    ⟨"".toList,
     "\n\n:::info Atmos Behavior\nAtmos provides standard setup for this command including automatic `terraform init` and workspace selection. The validation itself is performed by native Terraform.\n:::".toList⟩),
   ("terraform-state.mdx".toList,
    ⟨"".toList,
     "\n\n:::info Atmos Behavior\nAtmos provides standard setup for this command including automatic `terraform init` and workspace selection. Additionally, Atmos blocks state modifications if the component is locked (`metadata.locked: true`). The state operations themselves are handled by native Terraform.\n:::".toList⟩),
   ("terraform-taint.mdx".toList,
    ⟨"".toList,
     "\n\n:::info Atmos Behavior\nAtmos provides standard setup for this command including automatic `terraform init`, workspace selection, and variable file generation. Additionally, Atmos blocks this operation if the component is locked (`metadata.locked: true`). The taint operation itself is handled by native Terraform.\n:::".toList⟩),
   ("terraform-untaint.mdx".toList,
    ⟨"".toList,
     "\n\n:::info Atmos Behavior\nAtmos provides standard setup for this command including automatic `terraform init`, workspace selection, and variable file generation. Additionally, Atmos blocks this operation if the component is locked (`metadata.locked: true`). The untaint operation itself is handled by native Terraform.\n:::".toList⟩),
   ("terraform-import.mdx".toList,
    ⟨"".toList,
     "\n\n:::info Atmos Enhancements\nAtmos provides several enhancements for the import command:\n- Automatic `terraform init` before importing\n- Workspace selection and management\n- Variable file generation and passing\n- **Automatic AWS_REGION environment variable** setting based on the component's region variable\n- Component locking support (blocks import if `metadata.locked: true`)\n:::".toList⟩),
   ("terraform-refresh.mdx".toList,
    ⟨"".toList,
     "\n\n:::info Atmos Enhancements\nAtmos enhances the refresh command with:\n- Automatic `terraform init` before refreshing\n- Workspace selection and management\n- **Automatic variable file generation and passing**\n- Backend configuration\n- Component validation\n:::".toList⟩),
   ("terraform-destroy.mdx".toList,
    ⟨"".toList,
     "\n\n:::info Atmos Enhancements\nAtmos enhances the destroy command with:\n- Automatic `terraform init` before destroying\n- Workspace selection and management\n- **Automatic variable file generation and passing**\n- Backend configuration\n- Component validation and locking support\n:::".toList⟩)]

/-- Result of one `update_file` call: the file system afterwards, the
returned boolean, the written paths, and the printed messages. -/
structure FileResult where
  fs : FS
  changed : Bool
  writes : List FPath
  msgs : List (List Char)
deriving DecidableEq

/-- Warning print of line 98, `f"  ⚠️  File not found: {filename}"`. -/
def warnNotFound (filename : List Char) : List Char :=
  "  ⚠️  File not found: ".toList ++ filename

/-- `update_file(filename, updates_dict)` (lines 95-140): skip (with a
warning, returning `False`) when the file does not exist; otherwise
transform and write back only when the content changed. -/
def update_file (fs : FS) (filename : FPath) (u : DocUpdate) : FileResult :=
  let filepath := joinPath base_path filename
  match fsRead fs filepath with
  | none => ⟨fs, false, [], [warnNotFound filename]⟩
  | some content =>
    let c2 := updTransform u content
    if c2 == content then ⟨fs, false, [], []⟩
    else ⟨fsWrite fs filepath c2, true, [filepath], []⟩

/-- The `for filename, updates_dict in updates.items()` loop
(lines 144-151), threading the file system and `updated_count`. -/
def runUpdatesAux (fs : FS) (n : Nat) : List (FPath × DocUpdate) → FS × Nat
  | [] => (fs, n)
  | (f, u) :: rest =>
    let r := update_file fs f u
    runUpdatesAux r.fs (if r.changed then n + 1 else n) rest

def runUpdates (fs : FS) : FS × Nat := runUpdatesAux fs 0 updates

/-- Path of the temporary analysis file (line 156). -/
def analysis_file : FPath :=
  "/Users/erik/Dev/cloudposse/tools/atmos/.conductor/custom-planfile/terraform_command_analysis.md".toList

/-- Print of line 159. -/
def removed_msg : List Char := "🧹 Removed temporary analysis file".toList

/-- Lines 156-159: remove the analysis file if it exists. -/
def mainCleanup (fs : FS) : FS × List (List Char) :=
  if fsExistsB fs analysis_file then (fsErase fs analysis_file, [removed_msg])
  else (fs, [])

/-- The whole script: apply all updates, then clean up the analysis file.
Returns the final file system, `updated_count` and the cleanup messages. -/
def mainScript (fs : FS) : FS × Nat × List (List Char) :=
  ((mainCleanup (runUpdates fs).1).1, (runUpdates fs).2, (mainCleanup (runUpdates fs).1).2)

/-! ## Helper lemmas about the substitution machinery -/

/-- When the scanner finds no match, a substitution pass returns its input
unchanged (Python's "no match yields a silent no-op"). -/
theorem pySubAux_eq_of_no_match (sM tM : List Char → Option Nat) (repl : List Char) :
    ∀ fuel s, pyMatchAux sM tM fuel s = false → pySubAux sM tM repl fuel s = s := by
  intro fuel
  induction fuel with
  | zero => intro s _; rfl
  | succ n IH =>
    intro s h
    cases s with
    | nil => rfl
    | cons c cs =>
      cases hS : sM (c :: cs) with
      | some l =>
        cases hT : findTerm tM ((c :: cs).drop l) with
        | some ek =>
          simp only [pyMatchAux, hS, hT] at h
          exact Bool.noConfusion h
        | none =>
          simp only [pyMatchAux, hS, hT] at h
          simp only [pySubAux, hS, hT, IH cs h]
      | none =>
        simp only [pyMatchAux, hS] at h
        simp only [pySubAux, hS, IH cs h]

theorem pySub_eq_of_no_match (sM tM : List Char → Option Nat) (repl : List Char)
    (s : List Char) (h : pyMatches sM tM s = false) : pySub sM tM repl s = s :=
  pySubAux_eq_of_no_match sM tM repl s.length s h

theorem findTerm_termNow (t : List Char) : findTerm termNow t = some (0, 0) := by
  cases t <;> rfl

/-- Replacing a nonempty literal by itself is the identity
(`content.replace(x, x) == content`). -/
theorem pySubAux_replace_self (old : List Char) (hne : old ≠ []) :
    ∀ fuel s, s.length ≤ fuel → pySubAux (litM old) termNow old fuel s = s := by
  intro fuel
  induction fuel with
  | zero =>
    intro s hs
    rfl
  | succ n IH =>
    intro s hs
    cases s with
    | nil => rfl
    | cons c cs =>
      by_cases hp : old.isPrefixOf (c :: cs)
      · have hS : litM old (c :: cs) = some old.length := by
          simp [litM, hp]
        obtain ⟨t, ht⟩ := List.isPrefixOf_iff_prefix.mp hp
        have hdrop : (c :: cs).drop old.length = t := by
          rw [← ht, List.drop_left]
        have hlen : t.length ≤ n := by
          have h1 : (c :: cs).length = old.length + t.length := by
            rw [← ht, List.length_append]
          have h2 : 1 ≤ old.length := by
            cases old with
            | nil => exact absurd rfl hne
            | cons _ _ => simp
          omega
        simp only [pySubAux, hS, hdrop, findTerm_termNow, Nat.add_zero, List.drop_zero]
        rw [IH t hlen, ht]
      · have hS : litM old (c :: cs) = none := by
          simp [litM, hp]
        have hlen : cs.length ≤ n := by
          simp only [List.length_cons] at hs
          omega
        simp only [pySubAux, hS, IH cs hlen]

theorem pyReplace_self (old : List Char) (hne : old ≠ []) (s : List Char) :
    pyReplace old old s = s :=
  pySubAux_replace_self old hne s.length s le_rfl

/-! ## Newline-run lemmas -/

theorem nlRunLen_cons_nl (l : List Char) : nlRunLen ('\n' :: l) = nlRunLen l + 1 := by
  simp [nlRunLen, List.takeWhile_cons]

theorem nlRunLen_cons_of_ne (c : Char) (l : List Char) (h : c ≠ '\n') :
    nlRunLen (c :: l) = 0 := by
  simp [nlRunLen, List.takeWhile_cons, h]

theorem drop_nlRunLen : ∀ s : List Char, s.drop (nlRunLen s) = s.dropWhile (fun c => c == '\n')
  | [] => rfl
  | c :: cs => by
    by_cases hc : c = '\n'
    · subst hc
      rw [nlRunLen_cons_nl, List.drop_succ_cons, drop_nlRunLen cs]
      simp [List.dropWhile_cons]
    · rw [nlRunLen_cons_of_ne c cs hc]
      simp [List.dropWhile_cons, hc]

theorem nlRunLen_dropWhile : ∀ s : List Char,
    nlRunLen (s.dropWhile (fun c => c == '\n')) = 0
  | [] => rfl
  | c :: cs => by
    by_cases hc : c = '\n'
    · subst hc
      simpa [List.dropWhile_cons] using nlRunLen_dropWhile cs
    · simp only [List.dropWhile_cons]
      rw [if_neg (by simp [hc])]
      exact nlRunLen_cons_of_ne c cs hc

theorem length_dropWhile_nl (s : List Char) :
    (s.dropWhile (fun c => c == '\n')).length + nlRunLen s = s.length := by
  have h := List.takeWhile_append_dropWhile (fun c => c == '\n') s
  have h2 : (s.takeWhile (fun c => c == '\n') ++ s.dropWhile (fun c => c == '\n')).length
      = s.length := by rw [h]
  rw [List.length_append] at h2
  simp only [nlRunLen]
  omega

/-- Unfolding equation for `hasRun3` on a cons, phrased through the leading
newline run of the tail. -/
theorem hasRun3_cons (c : Char) (l : List Char) :
    hasRun3 (c :: l) = ((c == '\n' && decide (2 ≤ nlRunLen l)) || hasRun3 l) := by
  match l with
  | [] => simp [hasRun3, nlRunLen]
  | [c2] =>
    by_cases h2 : c2 = '\n' <;>
      simp [hasRun3, nlRunLen, List.takeWhile_cons, h2]
  | c2 :: c3 :: r =>
    by_cases h2 : c2 = '\n'
    · by_cases h3 : c3 = '\n'
      · subst h2; subst h3
        simp [hasRun3, nlRunLen_cons_nl]
      · subst h2
        have : nlRunLen ('\n' :: c3 :: r) = 1 := by
          rw [nlRunLen_cons_nl, nlRunLen_cons_of_ne c3 r h3]
        simp [hasRun3, this, h3]
    · have : nlRunLen (c2 :: c3 :: r) = 0 := nlRunLen_cons_of_ne _ _ h2
      simp [hasRun3, this, h2]

/-- Invariant of the `\n{3,} → \n\n` pass: the output never contains three
consecutive newlines, its leading newline run is at most `2` and at most the
input's leading run. -/
theorem collapse_inv :
    ∀ fuel s, s.length ≤ fuel →
      hasRun3 (pySubAux nlStart termNow ['\n', '\n'] fuel s) = false ∧
      nlRunLen (pySubAux nlStart termNow ['\n', '\n'] fuel s) ≤ 2 ∧
      nlRunLen (pySubAux nlStart termNow ['\n', '\n'] fuel s) ≤ nlRunLen s := by
  intro fuel
  induction fuel with
  | zero =>
    intro s hs
    have : s = [] := List.length_eq_zero.mp (Nat.le_zero.mp hs)
    subst this
    exact ⟨rfl, by simp [pySubAux, nlRunLen], by simp [pySubAux]⟩
  | succ n IH =>
    intro s hs
    cases s with
    | nil => exact ⟨rfl, by simp [pySubAux, nlRunLen], by simp [pySubAux]⟩
    | cons c cs =>
      by_cases hk : 3 ≤ nlRunLen (c :: cs)
      · -- a maximal newline run of length ≥ 3 is collapsed to two newlines
        have hS : nlStart (c :: cs) = some (nlRunLen (c :: cs)) := by
          simp [nlStart, hk]
        have hdrop : (c :: cs).drop (nlRunLen (c :: cs)) =
            (c :: cs).dropWhile (fun c => c == '\n') := drop_nlRunLen (c :: cs)
        have hlen : ((c :: cs).dropWhile (fun c => c == '\n')).length ≤ n := by
          have := length_dropWhile_nl (c :: cs)
          simp only [List.length_cons] at hs this ⊢
          omega
        obtain ⟨hA, hB, hC⟩ := IH ((c :: cs).dropWhile (fun c => c == '\n')) hlen
        have hzero : nlRunLen (pySubAux nlStart termNow ['\n', '\n'] n
            ((c :: cs).dropWhile (fun c => c == '\n'))) = 0 := by
          have := nlRunLen_dropWhile (c :: cs)
          omega
        simp only [pySubAux, hS, findTerm_termNow, Nat.add_zero, List.drop_zero, hdrop]
        refine ⟨?_, ?_, ?_⟩
        · rw [List.cons_append, List.cons_append, List.nil_append,
            hasRun3_cons, hasRun3_cons, hzero]
          have h1 : nlRunLen ('\n' :: pySubAux nlStart termNow ['\n', '\n'] n
              ((c :: cs).dropWhile (fun c => c == '\n'))) = 1 := by
            rw [nlRunLen_cons_nl, hzero]
          rw [h1, hA]
          simp
        · rw [List.cons_append, List.cons_append, List.nil_append,
            nlRunLen_cons_nl, nlRunLen_cons_nl, hzero]
        · rw [List.cons_append, List.cons_append, List.nil_append,
            nlRunLen_cons_nl, nlRunLen_cons_nl, hzero]
          omega
      · -- no match starts here: copy one character
        have hS : nlStart (c :: cs) = none := by
          simp [nlStart, hk]
        have hlen : cs.length ≤ n := by
          simp only [List.length_cons] at hs
          omega
        obtain ⟨hA, hB, hC⟩ := IH cs hlen
        simp only [pySubAux, hS]
        by_cases hc : c = '\n'
        · subst hc
          have hcs : nlRunLen cs ≤ 1 := by
            rw [nlRunLen_cons_nl] at hk
            omega
          refine ⟨?_, ?_, ?_⟩
          · rw [hasRun3_cons, hA]
            have : ¬ 2 ≤ nlRunLen (pySubAux nlStart termNow ['\n', '\n'] n cs) := by omega
            simp [this]
          · rw [nlRunLen_cons_nl]
            omega
          · rw [nlRunLen_cons_nl, nlRunLen_cons_nl]
            omega
        · refine ⟨?_, ?_, ?_⟩
          · rw [hasRun3_cons, hA]
            simp [hc]
          · rw [nlRunLen_cons_of_ne _ _ hc]
            omega
          · rw [nlRunLen_cons_of_ne _ _ hc]
            omega

/-- The final substitution of `clean_planfiles_doc.py` guarantees no run of
three or more newlines in its result. -/
theorem collapseBlank_no_run3 (s : List Char) : hasRun3 (collapseBlank s) = false :=
  (collapse_inv s.length s le_rfl).1

/-! ## Info-box insertion: specification-level description -/

/-- Whether some line of `lines` both equals `""` and directly follows a
line starting with `"This command"` (`prev` is the line before the first
element, `none` at the very start). -/
def anyQual : Option (List Char) → List (List Char) → Bool
  | _, [] => false
  | prev, line :: rest => qualPrev prev line || anyQual (some line) rest

/-- Insert `box.strip()` directly after the first qualifying empty line and
leave everything else (in particular all later lines) untouched. -/
def insertOnce (box : List Char) : Option (List Char) → List (List Char) → List (List Char)
  | _, [] => []
  | prev, line :: rest =>
    if qualPrev prev line then line :: pyStrip box :: rest
    else line :: insertOnce box (some line) rest

/-- Specification-level reformulation of the info-box step: insert the
stripped box at most once, after the first empty line following a
`"This command"` line, or return the content unchanged when no such
position exists. -/
def insertSpecOnce (box c : List Char) : List Char :=
  if box == [] then c
  else if anyQual none (c.splitOn '\n') then
    List.intercalate ['\n'] (insertOnce box none (c.splitOn '\n'))
  else c

theorem infoAux_true (box : List Char) :
    ∀ (l : List (List Char)) (prev : Option (List Char)), infoAux box prev true l = (l, true) := by
  intro l
  induction l with
  | nil => intro prev; rfl
  | cons line rest IH =>
    intro prev
    simp [infoAux, IH (some line)]

theorem infoAux_eq (box : List Char) :
    ∀ (l : List (List Char)) (prev : Option (List Char)),
      infoAux box prev false l =
        (if anyQual prev l then insertOnce box prev l else l, anyQual prev l) := by
  intro l
  induction l with
  | nil => intro prev; rfl
  | cons line rest IH =>
    intro prev
    cases hq : qualPrev prev line with
    | true =>
      simp [infoAux, anyQual, insertOnce, hq, infoAux_true box rest (some line)]
    | false =>
      cases hA : anyQual (some line) rest with
      | true => simp [infoAux, anyQual, insertOnce, hq, hA, IH (some line)]
      | false => simp [infoAux, anyQual, insertOnce, hq, hA, IH (some line)]

/-- The loop of lines 119-134 implements exactly the insert-at-most-once
specification. -/
theorem insertInfo_eq_spec (box c : List Char) : insertInfo box c = insertSpecOnce box c := by
  by_cases hb : box == []
  · simp [insertInfo, insertSpecOnce, hb]
  · simp only [insertInfo, insertSpecOnce, hb, Bool.false_eq_true, if_false,
      infoAux_eq box (c.splitOn '\n') none]
    cases hA : anyQual none (c.splitOn '\n') with
    | true => simp [hA]
    | false => simp [hA]

/-! ## File-system lemmas -/

theorem fsRead_eq_none_of_not_exists (fs : FS) (p : FPath) (h : fsExistsB fs p = false) :
    fsRead fs p = none := by
  induction fs with
  | nil => rfl
  | cons e rest IH =>
    simp only [fsExistsB, List.any_cons, Bool.or_eq_false_iff] at h
    simp only [fsRead, List.find?]
    rw [h.1]
    exact IH (by simp [fsExistsB, h.2])

theorem fsRead_fsErase_self (fs : FS) (p : FPath) : fsRead (fsErase fs p) p = none := by
  induction fs with
  | nil => rfl
  | cons e rest IH =>
    simp only [fsErase, List.filter]
    cases he : e.1 == p with
    | true => simpa [fsErase] using IH
    | false =>
      simp only [Bool.not_false]
      simp only [fsRead, List.find?, he]
      simp only [fsRead, fsErase] at IH
      exact IH

theorem fsRead_fsWrite_ne (fs : FS) (p q : FPath) (c : List Char) (h : ¬ q = p) :
    fsRead (fsWrite fs p c) q = fsRead fs q := by
  have hmap : ∀ l : FS,
      fsRead (l.map (fun e => if e.1 == p then (p, c) else e)) q = fsRead l q := by
    intro l
    induction l with
    | nil => rfl
    | cons e rest IH =>
      by_cases he : e.1 == p
      · have hep : e.1 = p := by simpa using he
        have h1 : (p == q) = false := by
          simp only [beq_eq_false_iff_ne, ne_eq]
          exact fun hpq => h hpq.symm
        have h2 : (e.1 == q) = false := by
          rw [hep]
          exact h1
        simp only [fsRead, List.map_cons, List.find?, he, if_true, h1, h2] at *
        exact IH
      · simp only [fsRead, List.map_cons, List.find?, he, if_false, Bool.false_eq_true] at *
        cases heq : e.1 == q with
        | true => simp
        | false => simpa using IH
  by_cases hex : fs.any (fun e => e.1 == p)
  · simp only [fsWrite, hex, if_true]
    exact hmap fs
  · simp only [fsWrite, hex, if_false, Bool.false_eq_true]
    induction fs with
    | nil =>
      simp only [fsRead, List.nil_append, List.find?]
      have : (p == q) = false := by
        simp only [beq_eq_false_iff_ne, ne_eq]
        exact fun hpq => h hpq.symm
      simp [this]
    | cons e rest IH =>
      simp only [List.any_cons, Bool.or_eq_true, not_or] at hex
      simp only [fsRead, List.cons_append, List.find?] at *
      cases heq : e.1 == q with
      | true => simp
      | false =>
        simpa using IH (by simpa using hex.2)

/-! ## Counting updated files -/

/-- Whether `update_file` would modify the file of entry `e` when run on
file system `fs`: the file exists and its transformed content differs. -/
def changedIn (fs : FS) (e : FPath × DocUpdate) : Bool :=
  match fsRead fs (joinPath base_path e.1) with
  | some c => !(updTransform e.2 c == c)
  | none => false

theorem joinPath_inj (b f g : FPath) (h : joinPath b f = joinPath b g) : f = g := by
  simp only [joinPath] at h
  have := List.append_cancel_left h
  exact (List.cons.injEq _ _ _ _).mp this |>.2

theorem update_file_changed (fs : FS) (f : FPath) (u : DocUpdate) :
    (update_file fs f u).changed = changedIn fs (f, u) := by
  simp only [update_file, changedIn]
  cases hr : fsRead fs (joinPath base_path f) with
  | none => rfl
  | some c =>
    cases hc : updTransform u c == c with
    | true => simp [hc]
    | false => simp [hc]

theorem update_file_fs_of_unchanged (fs : FS) (f : FPath) (u : DocUpdate)
    (h : changedIn fs (f, u) = false) : (update_file fs f u).fs = fs := by
  simp only [update_file, changedIn] at *
  cases hr : fsRead fs (joinPath base_path f) with
  | none => rfl
  | some c =>
    rw [hr] at h
    cases hc : updTransform u c == c with
    | true => simp [hc]
    | false => simp [hc] at h

theorem update_file_fs_of_changed (fs : FS) (f : FPath) (u : DocUpdate)
    (h : changedIn fs (f, u) = true) :
    ∀ q, ¬ q = joinPath base_path f → fsRead (update_file fs f u).fs q = fsRead fs q := by
  intro q hq
  simp only [update_file, changedIn] at *
  cases hr : fsRead fs (joinPath base_path f) with
  | none => rfl
  | some c =>
    rw [hr] at h
    cases hc : updTransform u c == c with
    | true => simp [hc] at h
    | false =>
      simp only [hc, Bool.false_eq_true, if_false]
      exact fsRead_fsWrite_ne fs _ q _ hq

/-- The loop's final `updated_count`, for any entry list with pairwise
distinct filenames, counts exactly the entries whose file exists in the
initial file system and whose content the transformation changes.  (Each
iteration writes at most its own path, so later reads are unaffected.) -/
theorem runUpdatesAux_count :
    ∀ (entries : List (FPath × DocUpdate)), (entries.map Prod.fst).Nodup →
      ∀ (fs : FS) (n : Nat),
        (runUpdatesAux fs n entries).2 = n + (entries.filter (changedIn fs)).length := by
  intro entries
  induction entries with
  | nil => intro _ fs n; simp [runUpdatesAux]
  | cons e rest IH =>
    intro hnd fs n
    obtain ⟨f, u⟩ := e
    have hnd' : (rest.map Prod.fst).Nodup := (List.nodup_cons.mp hnd).2
    have hnotin : f ∉ rest.map Prod.fst := (List.nodup_cons.mp hnd).1
    have hfilter : ∀ fs' : FS,
        (∀ q, ¬ q = joinPath base_path f → fsRead fs' q = fsRead fs q) →
        rest.filter (changedIn fs') = rest.filter (changedIn fs) := by
      intro fs' hread
      apply List.filter_congr
      intro e' he'
      have hne : ¬ joinPath base_path e'.1 = joinPath base_path f := by
        intro hcontra
        exact hnotin (by
          have : e'.1 = f := joinPath_inj base_path e'.1 f hcontra
          rw [← this]
          exact List.mem_map_of_mem Prod.fst he')
      simp only [changedIn, hread _ hne]
    cases hch : changedIn fs (f, u) with
    | false =>
      have hb : (update_file fs f u).changed = false := by
        rw [update_file_changed, hch]
      have hfs : (update_file fs f u).fs = fs := update_file_fs_of_unchanged fs f u hch
      simp only [runUpdatesAux, hb, if_false, Bool.false_eq_true, hfs]
      rw [IH hnd' fs n]
      simp [List.filter_cons, hch]
    | true =>
      have hb : (update_file fs f u).changed = true := by
        rw [update_file_changed, hch]
      simp only [runUpdatesAux, hb, if_true]
      rw [IH hnd' (update_file fs f u).fs (n + 1),
        hfilter _ (update_file_fs_of_changed fs f u hch)]
      simp only [List.filter_cons, hch, if_true, List.length_cons]
      omega

/-! ## No-op helpers -/

/-- If none of the six patterns of `clean_planfiles_doc.py` matches the
content, the whole transformation is the identity. -/
theorem cleanTransform_noop_helper (c : List Char)
    (h1 : pyMatches (litM ci_cd_lit) hdrStop c = false)
    (h2 : pyMatches (litM alt_lit) (litM alt_end_lit) c = false)
    (h3 : pyMatches prodStart prodStop c = false)
    (h4 : pyMatches (litM practices_lit) hdrStop c = false)
    (h5 : pyMatches (litM gitlab_lit) (litM fence_lit) c = false)
    (h6 : pyMatches nlStart termNow c = false) :
    cleanTransform c = c := by
  have e1 : removeCICD c = c := pySub_eq_of_no_match _ _ _ c h1
  have e2 : replaceAlternative c = c := pySub_eq_of_no_match _ _ _ c h2
  have e3 : removeProduction c = c := pySub_eq_of_no_match _ _ _ c h3
  have e4 : replacePractices c = c := pySub_eq_of_no_match _ _ _ c h4
  have e5 : removeGitLab c = c := pySub_eq_of_no_match _ _ _ c h5
  have e6 : collapseBlank c = c := pySub_eq_of_no_match _ _ _ c h6
  show collapseBlank (removeGitLab (replacePractices (removeProduction
    (replaceAlternative (removeCICD c))))) = c
  rw [e1, e2, e3, e4, e5, e6]

/-- If the Screengrab anchor does not occur in the content and no
`"This command"` line is followed by an empty line, `update_file`'s
transformation is the identity, whatever the update entry. -/
theorem updTransform_noop_helper (u : DocUpdate) (c : List Char)
    (hA : pyMatches (litM sg_anchor) termNow c = false)
    (hQ : anyQual none (c.splitOn '\n') = false) :
    updTransform u c = c := by
  have hnn : purpose_note_new = purpose_note := rfl
  have hP : applyPurpose u.purpose_addon c = c := by
    by_cases h : u.purpose_addon == []
    · simp [applyPurpose, h]
    · simp only [applyPurpose, h, Bool.false_eq_true, if_false]
      rw [hnn, pyReplace_self purpose_note (by decide) c]
      exact pySub_eq_of_no_match _ _ _ c hA
  show insertInfo u.info_box (applyPurpose u.purpose_addon c) = c
  rw [hP, insertInfo_eq_spec]
  by_cases hb : u.info_box == [] <;> simp [insertSpecOnce, hb, hQ]

/-! ## Simplified form of `update_file`'s purpose handling (for claim C9) -/

/-- `update_file`'s purpose-addon branch with the first (identity)
`content.replace` dropped, keeping only the insertion before
`":::\n\n<Screengrab"`. -/
def applyPurposeSimple (addon c : List Char) : List Char :=
  if addon == [] then c
  else pyReplace sg_anchor (addon ++ '\n' :: sg_anchor) c

/-- `update_file`'s transformation with the simplified purpose handling. -/
def updTransformSimple (u : DocUpdate) (c : List Char) : List Char :=
  insertInfo u.info_box (applyPurposeSimple u.purpose_addon c)

/-! ## Claims -/

/-- Claim C1, counterexample: re-running is not idempotent.  For the clean
script, the GitLab removal glues `"For GitL"` onto `"ab-managed …"`,
creating a fresh match that the second run removes; for `update_file`
(`terraform-fmt` entry), the replacement for `":::\n\n<Screengrab"` contains
the anchor itself, so a second run inserts the purpose addon again. -/
theorem rerun_changes_output_cex :
    cleanTransform (cleanTransform
        ("For GitLFor GitLab-managed q```\nab-managed w```\n".toList)) ≠
      cleanTransform ("For GitLFor GitLab-managed q```\nab-managed w```\n".toList) ∧
    updTransform updFmt (updTransform updFmt (":::\n\n<Screengrab".toList)) ≠
      updTransform updFmt (":::\n\n<Screengrab".toList) := by
  constructor <;> decide

/-- Claim C1, amended: a second run is a no-op only when the target patterns
do not match the content; in that case both transformations are the
identity, hence fixed points.  (In general the patterns can still match, or
newly arise in, transformed output — see the counterexample.) -/
theorem rerun_fixed_only_without_match :
    (∀ (u : DocUpdate) (c : List Char),
        pyMatches (litM sg_anchor) termNow c = false →
        anyQual none (c.splitOn '\n') = false →
        updTransform u c = c ∧ updTransform u (updTransform u c) = updTransform u c) ∧
    (∀ c : List Char,
        pyMatches (litM ci_cd_lit) hdrStop c = false →
        pyMatches (litM alt_lit) (litM alt_end_lit) c = false →
        pyMatches prodStart prodStop c = false →
        pyMatches (litM practices_lit) hdrStop c = false →
        pyMatches (litM gitlab_lit) (litM fence_lit) c = false →
        pyMatches nlStart termNow c = false →
        cleanTransform c = c ∧ cleanTransform (cleanTransform c) = cleanTransform c) := by
  constructor
  · intro u c hA hQ
    have h := updTransform_noop_helper u c hA hQ
    refine ⟨h, ?_⟩
    rw [h]
    exact h
  · intro c h1 h2 h3 h4 h5 h6
    have h := cleanTransform_noop_helper c h1 h2 h3 h4 h5 h6
    refine ⟨h, ?_⟩
    rw [h]
    exact h

/-- Claim C1, witness for the amended theorem at a concrete content. -/
theorem rerun_fixed_only_without_match_w :
    updTransform updFmt ("hello\n".toList) = "hello\n".toList ∧
    updTransform updFmt (updTransform updFmt ("hello\n".toList)) =
      updTransform updFmt ("hello\n".toList) :=
  rerun_fixed_only_without_match.1 updFmt ("hello\n".toList) (by decide) (by decide)

/-- Claim C2, counterexample: `clean_planfiles_doc.py` has no existence
check; on a file system without its hardcoded `.mdx` file the `open` raises
an uncaught `FileNotFoundError` instead of skipping. -/
theorem clean_missing_file_raises_cex :
    cleanRun [] = Except.error ("FileNotFoundError".toList) := rfl

/-- Claim C2, amended: `update_file` skips a missing file with a warning and
returns `False` without touching the file system, while
`clean_planfiles_doc.py` raises an unhandled `FileNotFoundError` when its
hardcoded file is absent. -/
theorem missing_file_skip_or_raise :
    (∀ (fs : FS) (f : FPath) (u : DocUpdate),
        fsRead fs (joinPath base_path f) = none →
        update_file fs f u = ⟨fs, false, [], [warnNotFound f]⟩) ∧
    (∀ fs : FS, fsRead fs file_path = none →
        cleanRun fs = Except.error ("FileNotFoundError".toList)) := by
  constructor
  · intro fs f u h
    simp [update_file, h]
  · intro fs h
    simp [cleanRun, h]

/-- Claim C2, witness: the skip branch of `update_file` at a concrete empty
file system. -/
theorem missing_file_skip_or_raise_w :
    update_file [] ("terraform-fmt.mdx".toList) updFmt =
      ⟨[], false, [], [warnNotFound ("terraform-fmt.mdx".toList)]⟩ :=
  missing_file_skip_or_raise.1 [] ("terraform-fmt.mdx".toList) updFmt rfl

/-- Claim C3, counterexample: on content that the transformation leaves
unchanged, `clean_planfiles_doc.py` still rewrites its file (lines 147-148
write unconditionally) — the write log records a write of `file_path`. -/
theorem clean_writes_unchanged_cex :
    cleanRun [(file_path, "hello\n".toList)] =
      Except.ok ([(file_path, "hello\n".toList)], [file_path]) ∧
    cleanTransform ("hello\n".toList) = "hello\n".toList := by
  exact ⟨rfl, by decide⟩

/-- Claim C3, amended: `update_terraform_docs.py` writes a file back only
when the transformed content differs, but `clean_planfiles_doc.py`
unconditionally writes its file back, even when the transformation left the
content unchanged. -/
theorem write_only_if_changed_amended :
    (∀ (fs : FS) (f : FPath) (u : DocUpdate) (c : List Char),
        fsRead fs (joinPath base_path f) = some c → updTransform u c = c →
        update_file fs f u = ⟨fs, false, [], []⟩) ∧
    (∀ (fs : FS) (c : List Char), fsRead fs file_path = some c →
        cleanRun fs = Except.ok (fsWrite fs file_path (cleanTransform c), [file_path])) := by
  constructor
  · intro fs f u c h hid
    simp [update_file, h, hid]
  · intro fs c h
    simp [cleanRun, h]

/-- Claim C3, witness: `update_file` at a concrete file whose content the
transformation fixes: no write, `False` returned. -/
theorem write_only_if_changed_amended_w :
    update_file [(joinPath base_path ("terraform-fmt.mdx".toList), "hi".toList)]
        ("terraform-fmt.mdx".toList) updFmt =
      ⟨[(joinPath base_path ("terraform-fmt.mdx".toList), "hi".toList)], false, [], []⟩ :=
  write_only_if_changed_amended.1 _ ("terraform-fmt.mdx".toList) updFmt ("hi".toList)
    (by decide) (by decide)

/-- Claim C4, counterexample: `update_terraform_docs.py` performs no
blank-line normalization; on a file with an existing newline run the
transformation changes the content (so it is written) and the written
content still contains three consecutive newlines. -/
theorem update_writes_triple_blank_cex :
    updTransform updFmt ("This command does stuff\n\n\n\n\nEnd".toList) ≠
      ("This command does stuff\n\n\n\n\nEnd".toList) ∧
    hasRun3 (updTransform updFmt ("This command does stuff\n\n\n\n\nEnd".toList)) = true := by
  constructor <;> decide

/-- Claim C4, amended: the content `clean_planfiles_doc.py` writes never
contains three or more consecutive newline characters (its final
substitution collapses every such run), while `update_terraform_docs.py`
gives no such guarantee. -/
theorem clean_output_no_triple_blank (c : List Char) :
    hasRun3 (cleanTransform c) = false :=
  collapseBlank_no_run3
    (removeGitLab (replacePractices (removeProduction (replaceAlternative (removeCICD c)))))

/-- Claim C5: when none of the six patterns of `clean_planfiles_doc.py`
matches the content, the transformation is a silent no-op: the produced
content equals the input exactly (and the pure transformation cannot
fail). -/
theorem clean_no_match_noop (c : List Char)
    (h1 : pyMatches (litM ci_cd_lit) hdrStop c = false)
    (h2 : pyMatches (litM alt_lit) (litM alt_end_lit) c = false)
    (h3 : pyMatches prodStart prodStop c = false)
    (h4 : pyMatches (litM practices_lit) hdrStop c = false)
    (h5 : pyMatches (litM gitlab_lit) (litM fence_lit) c = false)
    (h6 : pyMatches nlStart termNow c = false) :
    cleanTransform c = c :=
  cleanTransform_noop_helper c h1 h2 h3 h4 h5 h6

/-- Claim C5, witness at a concrete content matching no pattern. -/
theorem clean_no_match_noop_w :
    cleanTransform ("hello world\n".toList) = "hello world\n".toList :=
  clean_no_match_noop ("hello world\n".toList)
    (by decide) (by decide) (by decide) (by decide) (by decide) (by decide)

/-- Claim C6: `update_terraform_docs.py` deletes
`terraform_command_analysis.md` iff it is present: after the script the file
is never present; the cleanup step removes it (printing a message) exactly
when it exists and leaves the file system untouched otherwise. -/
theorem analysis_file_cleanup_iff :
    (∀ fs : FS, fsRead (mainScript fs).1 analysis_file = none) ∧
    (∀ g : FS, fsExistsB g analysis_file = true →
        mainCleanup g = (fsErase g analysis_file, [removed_msg])) ∧
    (∀ g : FS, fsExistsB g analysis_file = false → mainCleanup g = (g, [])) := by
  refine ⟨?_, ?_, ?_⟩
  · intro fs
    simp only [mainScript]
    cases hE : fsExistsB (runUpdates fs).1 analysis_file with
    | true => simp [mainCleanup, hE, fsRead_fsErase_self]
    | false => simp [mainCleanup, hE, fsRead_eq_none_of_not_exists _ _ hE]
  · intro g h
    simp [mainCleanup, h]
  · intro g h
    simp [mainCleanup, h]

/-- Claim C6, witness: cleanup at a file system that holds the analysis
file. -/
theorem analysis_file_cleanup_iff_w :
    mainCleanup [(analysis_file, [])] =
      (fsErase [(analysis_file, [])] analysis_file, [removed_msg]) :=
  analysis_file_cleanup_iff.2.1 [(analysis_file, [])] (by decide)

/-- Claim C7: `clean_planfiles_doc.py`'s output is the composition, in
source order, of: remove the CI/CD Integration section, replace the
Alternative JSON/YAML Planfiles section, remove the Use Planfiles in
Production section, replace the Best Practices section, remove the
GitLab-specific passage, and collapse runs of three or more newlines to
two. -/
theorem clean_pipeline_composition (c : List Char) :
    cleanTransform c =
      [removeCICD, replaceAlternative, removeProduction, replacePractices,
        removeGitLab, collapseBlank].foldl (fun acc f => f acc) c := rfl

/-- Claim C8: the info-box step inserts the stripped box at most once —
exactly after the first empty line that follows a line starting with
`"This command"` — and not at all when no such position exists. -/
theorem info_box_insert_once (box c : List Char) :
    insertInfo box c = insertSpecOnce box c :=
  insertInfo_eq_spec box c

/-- Claim C9: the first `content.replace` of the purpose-addon branch
replaces `":::note purpose\nUse this command"` with the identical f-string,
hence is the identity on every input, and `update_file`'s transformation is
equivalent to the simplified function that keeps only the second
replacement. -/
theorem purpose_replace_identity_refinement :
    purpose_note_new = purpose_note ∧
    (∀ c : List Char, pyReplace purpose_note purpose_note_new c = c) ∧
    (∀ (u : DocUpdate) (c : List Char), updTransform u c = updTransformSimple u c) := by
  have hnn : purpose_note_new = purpose_note := rfl
  refine ⟨hnn, fun c => ?_, fun u c => ?_⟩
  · rw [hnn]
    exact pyReplace_self purpose_note (by decide) c
  · show insertInfo u.info_box (applyPurpose u.purpose_addon c) =
      insertInfo u.info_box (applyPurposeSimple u.purpose_addon c)
    by_cases h : u.purpose_addon == []
    · simp [applyPurpose, applyPurposeSimple, h]
    · simp only [applyPurpose, applyPurposeSimple, h, Bool.false_eq_true, if_false]
      rw [hnn, pyReplace_self purpose_note (by decide) c]

/-- Claim C10: for each file, `update_file` returns `True` iff the file
exists and its transformed content differs; whenever it returns `False`, the
file system is untouched and nothing was written; and the loop's final
`updated_count` is exactly the number of `updates` entries whose file
content was actually modified. -/
theorem update_count_correct :
    (∀ (fs : FS) (f : FPath) (u : DocUpdate),
        ((update_file fs f u).changed = true ↔
          ∃ c, fsRead fs (joinPath base_path f) = some c ∧ updTransform u c ≠ c) ∧
        ((update_file fs f u).changed = false →
          (update_file fs f u).fs = fs ∧ (update_file fs f u).writes = [])) ∧
    (∀ fs : FS, (runUpdates fs).2 = (updates.filter (changedIn fs)).length) := by
  constructor
  · intro fs f u
    constructor
    · cases hr : fsRead fs (joinPath base_path f) with
      | none =>
        simp [update_file, hr]
      | some c =>
        cases hc : updTransform u c == c with
        | true =>
          have : updTransform u c = c := by simpa using hc
          simp [update_file, hr, hc, this]
        | false =>
          have : updTransform u c ≠ c := by simpa using hc
          simp only [update_file, hr, hc, Bool.false_eq_true, if_false]
          simp only [true_iff]
          exact ⟨c, rfl, this⟩
    · intro h
      cases hr : fsRead fs (joinPath base_path f) with
      | none => simp [update_file, hr]
      | some c =>
        cases hc : updTransform u c == c with
        | true => simp [update_file, hr, hc]
        | false =>
          rw [update_file_changed] at h
          simp only [changedIn, hr, hc] at h
          simp at h
  · intro fs
    have := runUpdatesAux_count updates (by decide) fs 0
    simpa [runUpdates] using this

/-- Claim C10, witness: the `False` branch at a concrete (empty) file
system leaves it untouched with nothing written. -/
theorem update_count_correct_w :
    (update_file [] ("terraform-fmt.mdx".toList) updFmt).fs = [] ∧
    (update_file [] ("terraform-fmt.mdx".toList) updFmt).writes = [] :=
  (update_count_correct.1 [] ("terraform-fmt.mdx".toList) updFmt).2 (by decide)
